import Mathlib

set_option maxHeartbeats 1000000
set_option maxRecDepth 100000

/-! Verification of the finalscrap crawler / component-extraction pipeline.

The Python sources are shallowly embedded below.  Strings are Lean `String`s
(the sources only ever apply ASCII-relevant operations), Python `set`s become
`Finset`s or duplicate-free lists, and the thread pool of the crawler is
serialized in submission order (the lock-guarded bookkeeping of the source
makes this the canonical interleaving).  External collaborators (HTTP fetch,
the rendered browser session, the filesystem) are passed in as explicit
function parameters, exactly as the spec declares them out of scope. -/

/-! ## Generic string helpers (models of Python str primitives) -/

/-- Boolean test that the first list starts with the second one; used to model
Python substring search below. -/
def listStartsWith : List Char → List Char → Bool
  | _, [] => true
  | [], _ :: _ => false
  | a :: as, b :: bs => a == b && listStartsWith as bs

/-- Boolean test that `needle` occurs as a contiguous substring of the second
argument; models the Python expression `needle in hay` on strings. -/
def hasSubstr (needle : List Char) : List Char → Bool
  | [] => listStartsWith [] needle
  | c :: rest => listStartsWith (c :: rest) needle || hasSubstr needle rest

/-- String-level wrapper of `hasSubstr`: Python `needle in hay`. -/
def strContains (hay needle : String) : Bool :=
  hasSubstr needle.toList hay.toList

/-- ASCII lowercase of one character; models Python str.lower on the ASCII
URLs this repository works with. -/
def pyToLowerChar (c : Char) : Char :=
  if 'A' ≤ c ∧ c ≤ 'Z' then Char.ofNat (c.toNat + 32) else c

/-- ASCII lowercase of a string (Python url.lower()). -/
def pyLower (s : String) : String :=
  String.mk (s.toList.map pyToLowerChar)

/-- Boolean test that the first list ends with the second (Python
str.endswith). -/
def listEndsWith (l suffix : List Char) : Bool :=
  listStartsWith l.reverse suffix.reverse

/-- String-level wrapper of `listEndsWith`. -/
def strEndsWith (s suffix : String) : Bool :=
  listEndsWith s.toList suffix.toList

/-- Split a character list at the first occurrence of `sep`; the separator is
dropped.  When `sep` does not occur the second component is empty, which
matches how the embedding uses it (query and fragment default to `""`). -/
def splitAtFirst (sep : Char) : List Char → List Char × List Char
  | [] => ([], [])
  | c :: rest =>
    if c == sep then ([], rest)
    else
      let p := splitAtFirst sep rest
      (c :: p.1, p.2)

/-- Split at the first occurrence of `sep`, reporting whether it occurred at
all (needed for the scheme delimiter of urlparse). -/
def splitAtFirstOpt (sep : Char) : List Char → Option (List Char × List Char)
  | [] => none
  | c :: rest =>
    if c == sep then some ([], rest)
    else (splitAtFirstOpt sep rest).map fun p => (c :: p.1, p.2)

/-- Take characters until one of `stops` is met; returns the prefix and the
remainder (the stop character stays in the remainder). -/
def takeUntilAny (stops : List Char) : List Char → List Char × List Char
  | [] => ([], [])
  | c :: rest =>
    if stops.contains c then ([], c :: rest)
    else
      let p := takeUntilAny stops rest
      (c :: p.1, p.2)

/-! ## Model of urllib.parse.urlparse -/

/-- Result of urllib.parse.urlparse as the sources consume it (the `params`
component is never read by this repository and is left out). -/
structure UrlParts where
  scheme : String
  netloc : String
  path : String
  query : String
  fragment : String
deriving Repr, DecidableEq

/-- Characters allowed in a URL scheme after the leading letter. -/
def isSchemeChar (c : Char) : Bool :=
  c.isAlphanum || c == '+' || c == '-' || c == '.'

/-- Split off a scheme exactly as CPython does: the text before the first
colon is a scheme when it is nonempty, starts with a letter and consists of
scheme characters; it is lowercased. -/
def splitScheme (l : List Char) : List Char × List Char :=
  match splitAtFirstOpt ':' l with
  | none => ([], l)
  | some p =>
    if p.1 ≠ [] ∧ (match p.1 with | c :: _ => c.isAlpha | [] => false) = true
        ∧ p.1.all isSchemeChar = true
    then (p.1.map pyToLowerChar, p.2)
    else ([], l)

/-- Model of Python urlparse for the URL shapes this repository handles:
fragment split at the first hash, optional scheme, a netloc only after a
double slash (delimited by slash, question mark or hash), then path and
query.  CPython raises ValueError on unbalanced square brackets in the
netloc; the model returns `none` there, and the classifiers below treat that
as a parse failure. -/
def urlparse (url : String) : Option UrlParts :=
  let fs := splitAtFirst '#' url.toList
  let sch := splitScheme fs.1
  let nl :=
    match sch.2 with
    | '/' :: '/' :: r => takeUntilAny ['/', '?', '#'] r
    | rest => (([] : List Char), rest)
  if (nl.1.contains '[' != nl.1.contains ']') = true then none
  else
    let pq := splitAtFirst '?' nl.2
    some ⟨String.mk sch.1, String.mk nl.1, String.mk pq.1, String.mk pq.2, String.mk fs.2⟩

/-! ## URL classifier (is_valid_url) -/

/-- Extension skip-list of DynamicWebCrawler.is_valid_url
(dynamic_crawler_working_3page.py) and of enhanced_crawler.py. -/
def skipExtensionsDynamic : List String :=
  [".pdf", ".jpg", ".jpeg", ".png", ".gif", ".zip", ".doc", ".docx"]

/-- Extension skip-list of UltraFastCrawler.is_valid_url
(ultra_fast_crawler.py); it additionally holds .xls and .xlsx. -/
def skipExtensionsUltraFast : List String :=
  [".pdf", ".jpg", ".jpeg", ".png", ".gif", ".zip", ".doc", ".docx", ".xls", ".xlsx"]

/-- Path skip-list shared by every is_valid_url variant in the repository. -/
def skipPathsList : List String :=
  ["/admin", "/login", "/logout", "/api/", "/download"]

/-- Model of DynamicWebCrawler.is_valid_url: reject when the netloc is
nonempty and differs from the crawl domain, when the lowercased URL string
ends with a skip extension, or when the lowercased URL string contains a
skip-path substring anywhere; a parse failure is caught and yields False. -/
def isValidUrl (domain url : String) : Bool :=
  match urlparse url with
  | none => false
  | some parsed =>
    if parsed.netloc ≠ "" ∧ parsed.netloc ≠ domain then false
    else if skipExtensionsDynamic.any (fun ext => strEndsWith (pyLower url) ext) then false
    else if skipPathsList.any (fun p => strContains (pyLower url) p) then false
    else true

/-- Model of UltraFastCrawler.is_valid_url; identical to `isValidUrl` except
for the larger extension list. -/
def isValidUrlUltraFast (domain url : String) : Bool :=
  match urlparse url with
  | none => false
  | some parsed =>
    if parsed.netloc ≠ "" ∧ parsed.netloc ≠ domain then false
    else if skipExtensionsUltraFast.any (fun ext => strEndsWith (pyLower url) ext) then false
    else if skipPathsList.any (fun p => strContains (pyLower url) p) then false
    else true

/-- Helper: the dynamic classifier rejects whenever its extension test or its
substring test fires, regardless of the domain argument. -/
theorem isValidUrl_rejects (domain url : String)
    (h : skipExtensionsDynamic.any (fun ext => strEndsWith (pyLower url) ext) = true ∨
      skipPathsList.any (fun p => strContains (pyLower url) p) = true) :
    isValidUrl domain url = false := by
  unfold isValidUrl
  cases hp : urlparse url with
  | none => rfl
  | some parsed =>
    by_cases h1 : parsed.netloc ≠ "" ∧ parsed.netloc ≠ domain
    · simp [h1]
    · rcases h with h | h
      · simp [h1, h]
      · by_cases h2 : skipExtensionsDynamic.any (fun ext => strEndsWith (pyLower url) ext) = true
        · simp [h1, h2]
        · simp [h1, h2, h]

/-- Helper: the ultra-fast classifier rejects whenever its extension test or
its substring test fires, regardless of the domain argument. -/
theorem isValidUrlUltraFast_rejects (domain url : String)
    (h : skipExtensionsUltraFast.any (fun ext => strEndsWith (pyLower url) ext) = true ∨
      skipPathsList.any (fun p => strContains (pyLower url) p) = true) :
    isValidUrlUltraFast domain url = false := by
  unfold isValidUrlUltraFast
  cases hp : urlparse url with
  | none => rfl
  | some parsed =>
    by_cases h1 : parsed.netloc ≠ "" ∧ parsed.netloc ≠ domain
    · simp [h1]
    · rcases h with h | h
      · simp [h1, h]
      · by_cases h2 : skipExtensionsUltraFast.any (fun ext => strEndsWith (pyLower url) ext) = true
        · simp [h1, h2]
        · simp [h1, h2, h]

/-- Claim C5 (amended): the classifier of the dynamic crawler rejects every
URL whose lowercased URL string ends with one of its eight skip extensions
(.pdf .jpg .jpeg .png .gif .zip .doc .docx) or contains a skip-path
substring, and the ultra-fast classifier does the same for its ten-element
extension list; both rejections hold regardless of the domain argument. -/
theorem claim_C5_exclusion_rules (domain url : String) :
    ((skipExtensionsDynamic.any (fun ext => strEndsWith (pyLower url) ext) = true ∨
        skipPathsList.any (fun p => strContains (pyLower url) p) = true) →
      isValidUrl domain url = false)
    ∧ ((skipExtensionsUltraFast.any (fun ext => strEndsWith (pyLower url) ext) = true ∨
        skipPathsList.any (fun p => strContains (pyLower url) p) = true) →
      isValidUrlUltraFast domain url = false) :=
  ⟨isValidUrl_rejects domain url, isValidUrlUltraFast_rejects domain url⟩

/-- Claim C5, witness: a same-domain URL ending in .pdf is rejected by both
classifiers. -/
theorem claim_C5_exclusion_rules_witness :
    isValidUrl "example.com" "http://example.com/files/report.pdf" = false ∧
    isValidUrlUltraFast "example.com" "http://example.com/files/report.pdf" = false :=
  ⟨(claim_C5_exclusion_rules "example.com" "http://example.com/files/report.pdf").1
      (Or.inl (by decide)),
    (claim_C5_exclusion_rules "example.com" "http://example.com/files/report.pdf").2
      (Or.inl (by decide))⟩

/-- Claim C5, counterexample: the dynamic crawler accepts a same-domain URL
whose path ends with .xls, although the claim lists .xls in the fixed
extension set that is never eligible. -/
theorem claim_C5_counterexample :
    urlparse "http://example.com/report.xls" =
      some ⟨"http", "example.com", "/report.xls", "", ""⟩ ∧
    isValidUrl "example.com" "http://example.com/report.xls" = true := by
  constructor
  · decide
  · decide

/-- Claim C6 (amended): every URL the classifier accepts has a netloc that is
either empty (relative reference) or equal to the crawl domain, and a URL
string that fails to parse is classified ineligible instead of raising. -/
theorem claim_C6_domain_containment (domain url : String) :
    (∀ parsed, urlparse url = some parsed → isValidUrl domain url = true →
      parsed.netloc = "" ∨ parsed.netloc = domain)
    ∧ (urlparse url = none → isValidUrl domain url = false) := by
  constructor
  · intro parsed hp hv
    by_cases h1 : parsed.netloc ≠ "" ∧ parsed.netloc ≠ domain
    · exfalso
      have : isValidUrl domain url = false := by
        unfold isValidUrl
        rw [hp]
        simp [h1]
      rw [this] at hv
      exact Bool.false_ne_true hv
    · rcases not_and_or.mp h1 with h | h
      · exact Or.inl (not_not.mp h)
      · exact Or.inr (not_not.mp h)
  · intro hp
    unfold isValidUrl
    rw [hp]

/-- Claim C6, witness: an accepted absolute URL has the crawl domain as its
netloc, and an unparsable URL (unbalanced IPv6 bracket) is rejected. -/
theorem claim_C6_domain_containment_witness :
    (∀ parsed, urlparse "http://example.com/about" = some parsed →
      isValidUrl "example.com" "http://example.com/about" = true →
      parsed.netloc = "" ∨ parsed.netloc = "example.com") ∧
    isValidUrl "example.com" "http://[::1" = false :=
  ⟨(claim_C6_domain_containment "example.com" "http://example.com/about").1,
    (claim_C6_domain_containment "example.com" "http://[::1").2 (by decide)⟩

/-- Claim C6, counterexample: a relative URL parses with an empty netloc,
which differs from the site domain, yet the classifier accepts it, so
acceptance does not imply that the URL's network location equals the site
domain. -/
theorem claim_C6_counterexample :
    urlparse "/about/team" = some ⟨"", "", "/about/team", "", ""⟩ ∧
    isValidUrl "example.com" "/about/team" = true ∧
    ("" : String) ≠ "example.com" := by
  refine ⟨by decide, by decide, by decide⟩

/-- Claim C10: the skip-path substring check of the classifiers runs over the
entire lowercased URL string, so any URL containing an excluded substring
anywhere (also in query or fragment) is rejected by both classifiers. -/
theorem claim_C10_substring_whole_url (domain url : String)
    (h : skipPathsList.any (fun p => strContains (pyLower url) p) = true) :
    isValidUrl domain url = false ∧ isValidUrlUltraFast domain url = false :=
  ⟨isValidUrl_rejects domain url (Or.inr h),
    isValidUrlUltraFast_rejects domain url (Or.inr h)⟩

/-- Claim C10, witness: a URL whose path is clean but whose query mentions
/admin is rejected; the parse shows the excluded substring sits in the query
component only. -/
theorem claim_C10_substring_whole_url_witness :
    urlparse "http://example.com/page?next=/admin" =
      some ⟨"http", "example.com", "/page", "next=/admin", ""⟩ ∧
    isValidUrl "example.com" "http://example.com/page?next=/admin" = false ∧
    isValidUrlUltraFast "example.com" "http://example.com/page?next=/admin" = false :=
  ⟨by decide,
    (claim_C10_substring_whole_url "example.com" "http://example.com/page?next=/admin"
        (by decide)).1,
    (claim_C10_substring_whole_url "example.com" "http://example.com/page?next=/admin"
        (by decide)).2⟩

/-! ## Page identifier (create_page_identifier) -/

/-- Python regex class \w restricted to the ASCII range the sources feed it:
alphanumeric characters and the underscore. -/
def pyIsWordChar (c : Char) : Bool :=
  c.isAlphanum || c == '_'

/-- Characters kept by the path substitution re.sub of create_page_identifier
(class complement of word characters, hyphen, underscore, period). -/
def pathKeepChar (c : Char) : Bool :=
  pyIsWordChar c || c == '-' || c == '.'

/-- Characters kept by the query substitution re.sub of
create_page_identifier (word characters, hyphen, underscore, equals,
ampersand). -/
def queryKeepChar (c : Char) : Bool :=
  pyIsWordChar c || c == '-' || c == '=' || c == '&'

/-- Characters that can appear in a page identifier produced by the code. -/
def identChar (c : Char) : Bool :=
  pyIsWordChar c || c == '-' || c == '.' || c == '=' || c == '&'

/-- Python str.strip with a single strip character: remove every leading and
trailing occurrence of `c`. -/
def stripChar (c : Char) (l : List Char) : List Char :=
  ((l.dropWhile (· == c)).reverse.dropWhile (· == c)).reverse

/-- Model of re.sub underscore-run collapsing: every maximal run of
underscores becomes a single underscore. -/
def collapseUnderscoreRuns : List Char → List Char
  | [] => []
  | [a] => [a]
  | a :: b :: rest =>
    if a == '_' && b == '_' then collapseUnderscoreRuns (b :: rest)
    else a :: collapseUnderscoreRuns (b :: rest)

/-- Drop a trailing ".html" (one pass, exactly like the source's
endswith/[:-5] pair). -/
def dropDotHtml (l : List Char) : List Char :=
  if listEndsWith l (String.toList ".html") then List.take (l.length - 5) l else l

/-- Path component of create_page_identifier: strip slashes, then on a
nonempty remainder substitute disallowed characters by underscores, collapse
underscore runs, strip underscores and drop a trailing .html; an empty
remainder yields "homepage". -/
def pathIdentifierCore (path : String) : List Char :=
  let cleaned := stripChar '/' path.toList
  if cleaned = [] then String.toList "homepage"
  else
    dropDotHtml (stripChar '_'
      (collapseUnderscoreRuns (cleaned.map fun c => if pathKeepChar c then c else '_')))


/-- Character list of the final identifier for parsed URL parts: path
component, optional "_query_"-prefixed sanitized query, capped at 100
characters (the source caps only when the length exceeds 100). -/
def pageIdentList (parsed : UrlParts) : List Char :=
  let base := pathIdentifierCore parsed.path
  let withQuery :=
    if parsed.query ≠ "" then
      base ++ (String.toList "_query_" ++
        parsed.query.toList.map fun c => if queryKeepChar c then c else '_')
    else base
  if 100 < withQuery.length then List.take 100 withQuery else withQuery

/-- Model of create_page_identifier (identical in html_extractor.py and
advanced_component_analyzer.py).  The Option records that urlparse may fail
(create_page_identifier itself has no try/except; its callers catch). -/
def createPageIdentifier (url : String) : Option String :=
  (urlparse url).map fun parsed => String.mk (pageIdentList parsed)

theorem pathKeepChar_identChar {c : Char} (h : pathKeepChar c = true) : identChar c = true := by
  simp only [pathKeepChar, Bool.or_eq_true] at h
  simp only [identChar, Bool.or_eq_true]
  tauto

theorem queryKeepChar_identChar {c : Char} (h : queryKeepChar c = true) : identChar c = true := by
  simp only [queryKeepChar, Bool.or_eq_true] at h
  simp only [identChar, Bool.or_eq_true]
  tauto

theorem underscore_identChar : identChar '_' = true := by decide

theorem collapseUnderscoreRuns_subset :
    ∀ l : List Char, ∀ c ∈ collapseUnderscoreRuns l, c ∈ l
  | [] => by simp [collapseUnderscoreRuns]
  | [a] => by simp [collapseUnderscoreRuns]
  | a :: b :: rest => by
    intro c hc
    rw [collapseUnderscoreRuns] at hc
    by_cases h : (a == '_' && b == '_') = true
    · rw [if_pos h] at hc
      exact List.mem_cons_of_mem a (collapseUnderscoreRuns_subset (b :: rest) c hc)
    · rw [if_neg h] at hc
      rcases List.mem_cons.mp hc with h1 | h1
      · exact h1 ▸ List.mem_cons_self _ _
      · exact List.mem_cons_of_mem a (collapseUnderscoreRuns_subset (b :: rest) c h1)

theorem stripChar_subset (c : Char) (l : List Char) : ∀ x ∈ stripChar c l, x ∈ l := by
  intro x hx
  unfold stripChar at hx
  rw [List.mem_reverse] at hx
  have h1 : x ∈ (l.dropWhile (· == c)).reverse := (List.dropWhile_sublist _).subset hx
  rw [List.mem_reverse] at h1
  exact (List.dropWhile_sublist _).subset h1

theorem dropDotHtml_subset (l : List Char) : ∀ x ∈ dropDotHtml l, x ∈ l := by
  intro x hx
  unfold dropDotHtml at hx
  by_cases h : listEndsWith l (String.toList ".html") = true
  · rw [if_pos h] at hx
    exact List.take_subset _ _ hx
  · rw [if_neg h] at hx
    exact hx

theorem pathIdentifierCore_chars (path : String) :
    ∀ c ∈ pathIdentifierCore path, identChar c = true := by
  intro c hc
  unfold pathIdentifierCore at hc
  by_cases h : stripChar '/' path.toList = []
  · rw [if_pos h] at hc
    have hh : ∀ x ∈ String.toList "homepage", identChar x = true := by decide
    exact hh c hc
  · rw [if_neg h] at hc
    have h1 := dropDotHtml_subset _ c hc
    have h2 := stripChar_subset _ _ c h1
    have h3 := collapseUnderscoreRuns_subset _ c h2
    rcases List.mem_map.mp h3 with ⟨a, _, ha⟩
    by_cases hk : pathKeepChar a = true
    · rw [if_pos hk] at ha
      exact ha ▸ pathKeepChar_identChar hk
    · rw [if_neg hk] at ha
      exact ha ▸ underscore_identChar

theorem queryPart_chars (q : String) :
    ∀ c ∈ String.toList "_query_" ++ q.toList.map (fun c => if queryKeepChar c then c else '_'),
      identChar c = true := by
  intro c hc
  rcases List.mem_append.mp hc with h | h
  · have hh : ∀ x ∈ String.toList "_query_", identChar x = true := by decide
    exact hh c h
  · rcases List.mem_map.mp h with ⟨a, _, ha⟩
    by_cases hk : queryKeepChar a = true
    · rw [if_pos hk] at ha
      exact ha ▸ queryKeepChar_identChar hk
    · rw [if_neg hk] at ha
      exact ha ▸ underscore_identChar

theorem cap100_length (l : List Char) :
    (if 100 < l.length then List.take 100 l else l).length ≤ 100 := by
  split
  · simp [List.length_take]
  · omega

theorem mem_cap100 {c : Char} {l : List Char}
    (h : c ∈ (if 100 < l.length then List.take 100 l else l)) : c ∈ l := by
  by_cases hl : 100 < l.length
  · rw [if_pos hl] at h
    exact List.take_subset _ _ h
  · rw [if_neg hl] at h
    exact h

theorem pageIdentList_length (parsed : UrlParts) : (pageIdentList parsed).length ≤ 100 := by
  unfold pageIdentList
  exact cap100_length _

theorem pageIdentList_chars (parsed : UrlParts) :
    ∀ c ∈ pageIdentList parsed, identChar c = true := by
  intro c hc
  simp only [pageIdentList] at hc
  have hc2 := mem_cap100 hc
  split at hc2
  · rcases List.mem_append.mp hc2 with h | h
    · exact pathIdentifierCore_chars _ c h
    · exact queryPart_chars _ c h
  · exact pathIdentifierCore_chars _ c hc2

/-- Claim C4 (amended): create_page_identifier is deterministic; every
identifier it produces has length at most 100 and consists of word
characters, hyphens, underscores and periods, plus the equals signs and
ampersands that the query component may contribute; a URL with empty path
and empty query yields "homepage" (with a nonempty query a
homepage_query_... identifier is produced instead); a trailing ".html" on
the sanitized path component is stripped before use. -/
theorem claim_C4_page_identifier (url : String) :
    createPageIdentifier url = createPageIdentifier url
    ∧ (∀ pid, createPageIdentifier url = some pid →
        pid.length ≤ 100 ∧ ∀ c ∈ pid.toList, identChar c = true)
    ∧ (∀ parsed, urlparse url = some parsed → stripChar '/' parsed.path.toList = [] →
        parsed.query = "" → createPageIdentifier url = some "homepage")
    ∧ (∀ l : List Char, listEndsWith l (String.toList ".html") = true →
        dropDotHtml l = List.take (l.length - 5) l) := by
  refine ⟨rfl, ?_, ?_, ?_⟩
  · intro pid hpid
    unfold createPageIdentifier at hpid
    cases hp : urlparse url with
    | none =>
      rw [hp] at hpid
      exact absurd hpid (by simp)
    | some parsed =>
      rw [hp] at hpid
      have hpid' : String.mk (pageIdentList parsed) = pid := Option.some.inj hpid
      subst hpid'
      exact ⟨pageIdentList_length parsed, pageIdentList_chars parsed⟩
  · intro parsed hp hpath hq
    unfold createPageIdentifier
    rw [hp]
    have hbase : pathIdentifierCore parsed.path = String.toList "homepage" := by
      unfold pathIdentifierCore
      rw [if_pos hpath]
    have hlist : pageIdentList parsed = String.toList "homepage" := by
      unfold pageIdentList
      rw [hbase, hq]
      decide
    show some (String.mk (pageIdentList parsed)) = some "homepage"
    rw [hlist]
    rfl
  · intro l hl
    unfold dropDotHtml
    rw [if_pos hl]

/-- Claim C4, witness: the theorem instantiated at a concrete product-page
URL whose identifier exercises the slash substitution and the .html strip. -/
theorem claim_C4_page_identifier_witness :
    ("products_item" : String).length ≤ 100 ∧
      ∀ c ∈ ("products_item" : String).toList, identChar c = true :=
  (claim_C4_page_identifier "http://example.com/products/item.html").2.1
    "products_item" (by decide)

/-- Claim C4, counterexample: a URL with empty path but a query produces an
identifier containing an equals sign (not in the claimed character set) and
different from "homepage" although the path is empty. -/
theorem claim_C4_counterexample :
    createPageIdentifier "http://example.com/?a=b" = some "homepage_query_a=b"
    ∧ '=' ∈ ("homepage_query_a=b" : String).toList
    ∧ ("homepage_query_a=b" : String) ≠ "homepage" := by
  refine ⟨by decide, by decide, by decide⟩

/-! ## Dynamic discovery: delta attribution

The rendered browser session is abstracted as the sequence of link sets the
DOM shows after each interaction (pagination click or generic interaction),
exactly the view handle_numbered_pagination and handle_other_interactions
have of it.  Both functions share one mutable baseline set (`initial_links`
is passed through and updated in place), so one fold models the successive
interactions of both phases. -/

/-- One interaction of the discovery loops: compute the links newly visible
relative to the cumulative baseline (`new_links = current_links -
initial_links`), and if nonempty record them as this interaction's delta and
extend the baseline (`initial_links.update(new_links)`). -/
def discoveryStep {α : Type} [DecidableEq α] (acc : Finset α × List (Finset α))
    (snap : Finset α) : Finset α × List (Finset α) :=
  if snap \ acc.1 = ∅ then acc
  else (acc.1 ∪ (snap \ acc.1), acc.2 ++ [snap \ acc.1])

/-- Run the discovery interactions over the observed DOM snapshots, starting
from the baseline captured before any interaction; returns the final
cumulative baseline and the list of per-interaction deltas. -/
def interactionDeltas {α : Type} [DecidableEq α] (baseline : Finset α)
    (snapshots : List (Finset α)) : Finset α × List (Finset α) :=
  snapshots.foldl discoveryStep (baseline, [])

theorem discovery_fold_invariant {α : Type} [DecidableEq α] (L0 : Finset α) :
    ∀ (snaps : List (Finset α)) (base : Finset α) (acc : List (Finset α)),
      List.Pairwise Disjoint acc → (∀ d ∈ acc, d ⊆ base) →
      (∀ d ∈ acc, Disjoint d L0) → L0 ⊆ base →
      List.Pairwise Disjoint (snaps.foldl discoveryStep (base, acc)).2
      ∧ ∀ d ∈ (snaps.foldl discoveryStep (base, acc)).2, Disjoint d L0 := by
  intro snaps
  induction snaps with
  | nil =>
    intro base acc hpw hsub hd0 hLb
    exact ⟨hpw, hd0⟩
  | cons s rest ih =>
    intro base acc hpw hsub hd0 hLb
    rw [List.foldl_cons]
    by_cases hnd : s \ base = ∅
    · have hstep : discoveryStep (base, acc) s = (base, acc) := by
        simp only [discoveryStep]
        rw [if_pos hnd]
      rw [hstep]
      exact ih base acc hpw hsub hd0 hLb
    · have hstep : discoveryStep (base, acc) s = (base ∪ (s \ base), acc ++ [s \ base]) := by
        simp only [discoveryStep]
        rw [if_neg hnd]
      rw [hstep]
      have hdisjbase : Disjoint (s \ base) base := Finset.sdiff_disjoint
      refine ih (base ∪ (s \ base)) (acc ++ [s \ base]) ?_ ?_ ?_ ?_
      · rw [List.pairwise_append]
        refine ⟨hpw, List.pairwise_singleton _ _, ?_⟩
        intro a ha b hb
        rw [List.mem_singleton] at hb
        subst hb
        exact (hdisjbase.mono_right (hsub a ha)).symm
      · intro d hd
        rcases List.mem_append.mp hd with h | h
        · exact (hsub d h).trans Finset.subset_union_left
        · rw [List.mem_singleton] at h
          subst h
          exact Finset.subset_union_right
      · intro d hd
        rcases List.mem_append.mp hd with h | h
        · exact hd0 d h
        · rw [List.mem_singleton] at h
          subst h
          exact hdisjbase.mono_right hLb
      · exact hLb.trans Finset.subset_union_left

/-- Claim C1: starting from baseline L0, a session showing L0 ∪ {a} after the
first interaction and L0 ∪ {a, b} after the second attributes exactly {a} to
interaction 1 and exactly {b} to interaction 2; in general the recorded
deltas are pairwise disjoint and disjoint from the starting baseline, so no
link is ever attributed twice. -/
theorem claim_C1_delta_attribution {α : Type} [DecidableEq α] (L0 : Finset α) (a b : α)
    (ha : a ∉ L0) (hb : b ∉ L0) (hab : a ≠ b) :
    (interactionDeltas L0 [L0 ∪ {a}, L0 ∪ {a, b}]).2 = [{a}, {b}]
    ∧ ∀ (base : Finset α) (snaps : List (Finset α)),
        List.Pairwise Disjoint (interactionDeltas base snaps).2
        ∧ ∀ d ∈ (interactionDeltas base snaps).2, Disjoint d base := by
  constructor
  · have e1 : (L0 ∪ {a}) \ L0 = {a} := by
      ext x
      simp only [Finset.mem_sdiff, Finset.mem_union, Finset.mem_singleton]
      constructor
      · rintro ⟨h1 | h1, h2⟩
        · exact absurd h1 h2
        · exact h1
      · rintro rfl
        exact ⟨Or.inr rfl, ha⟩
    have e2 : (L0 ∪ {a, b}) \ (L0 ∪ {a}) = {b} := by
      ext x
      simp only [Finset.mem_sdiff, Finset.mem_union, Finset.mem_insert,
        Finset.mem_singleton, not_or]
      constructor
      · rintro ⟨h1 | h1, h2, h3⟩
        · exact absurd h1 h2
        · rcases h1 with h1 | h1
          · exact absurd h1 h3
          · exact h1
      · rintro rfl
        exact ⟨Or.inr (Or.inr rfl), hb, fun h => hab h.symm⟩
    have h1 : discoveryStep (L0, ([] : List (Finset α))) (L0 ∪ {a}) = (L0 ∪ {a}, [{a}]) := by
      simp only [discoveryStep, e1]
      rw [if_neg (Finset.singleton_ne_empty a)]
      simp [e1]
    have h2 : discoveryStep (L0 ∪ {a}, [({a} : Finset α)]) (L0 ∪ {a, b}) =
        (L0 ∪ {a} ∪ {b}, [{a}, {b}]) := by
      simp only [discoveryStep, e2]
      rw [if_neg (Finset.singleton_ne_empty b)]
      simp [e2]
    simp only [interactionDeltas, List.foldl_cons, List.foldl_nil, h1, h2]
  · intro base snaps
    exact discovery_fold_invariant base snaps base []
      (List.Pairwise.nil) (by intro d hd; cases hd) (by intro d hd; cases hd)
      (subset_refl base)

/-- Claim C1, witness: the scenario at concrete links. -/
theorem claim_C1_delta_attribution_witness :
    (interactionDeltas ({"l0"} : Finset String)
      [({"l0"} : Finset String) ∪ {"a"}, ({"l0"} : Finset String) ∪ {"a", "b"}]).2 =
      [{"a"}, {"b"}] :=
  (claim_C1_delta_attribution ({"l0"} : Finset String) "a" "b"
    (by decide) (by decide) (by decide)).1

/-! ## Component classifier (advanced_component_analyzer.py)

BeautifulSoup's find_all is modelled on the flattened document-order element
list of a parsed page.  Subtree-derived counts (find_all('a') inside a card,
input counts inside a form) are carried as fields of the element, since the
extractors only copy them into the component records. -/

/-- One candidate element of a parsed page, in document order. -/
structure HtmlElement where
  tag : String
  classes : List String
  html : String
  text : String
  anchorCount : Nat
  imageCount : Nat
  inputCount : Nat
  attrs : List (String × String)
deriving Repr, DecidableEq

/-- Class keywords of the card pattern re.compile(card|tile|item|box|panel,
re.I). -/
def cardClassKeywords : List String := ["card", "tile", "item", "box", "panel"]

/-- BeautifulSoup class_-regex matching: the pattern matches when any class
of the element contains one of the keywords, case-insensitively. -/
def classMatches (keywords : List String) (e : HtmlElement) : Bool :=
  e.classes.any fun cl => keywords.any fun k => strContains (pyLower cl) k

/-- Candidate filter of extract_card_components: div or section elements
whose class list matches the card pattern. -/
def isCardLike (e : HtmlElement) : Bool :=
  (e.tag == "div" || e.tag == "section") && classMatches cardClassKeywords e

/-- Component record built by extract_card_components. -/
structure CardComponent where
  id : String
  html : String
  classes : List String
  tag : String
  links : Nat
  images : Nat
  textContent : String
deriving Repr, DecidableEq

/-- One record of the card loop body (ids are 1-based). -/
def mkCardComponent (n : Nat) (e : HtmlElement) : CardComponent :=
  ⟨"card_" ++ toString n, e.html, e.classes, e.tag, e.anchorCount, e.imageCount,
    String.mk (e.text.toList.take 200)⟩

/-- The enumerate loop of extract_card_components, numbering from `n`. -/
def numberCards : Nat → List HtmlElement → List CardComponent
  | _, [] => []
  | n, e :: rest => mkCardComponent n e :: numberCards (n + 1) rest

/-- Model of extract_card_components: the card-like elements in document
order, capped at 15, numbered card_1, card_2, ... -/
def extractCardComponents (page : List HtmlElement) : List CardComponent :=
  numberCards 1 ((page.filter isCardLike).take 15)

/-- Component record built by extract_form_components. -/
structure FormComponent where
  id : String
  html : String
  classes : List String
  action : String
  method : String
  inputs : Nat
  textContent : String
deriving Repr, DecidableEq

/-- Python element.get(name, default). -/
def getAttrD (e : HtmlElement) (name dflt : String) : String :=
  ((e.attrs.find? fun p => p.1 == name).map Prod.snd).getD dflt

/-- One record of the form loop body. -/
def mkFormComponent (n : Nat) (e : HtmlElement) : FormComponent :=
  ⟨"form_" ++ toString n, e.html, e.classes, getAttrD e "action" "",
    getAttrD e "method" "get", e.inputCount, String.mk (e.text.toList.take 200)⟩

/-- The enumerate loop of extract_form_components. -/
def numberForms : Nat → List HtmlElement → List FormComponent
  | _, [] => []
  | n, e :: rest => mkFormComponent n e :: numberForms (n + 1) rest

/-- Model of extract_form_components: every form element, in document order,
with no cap (the source iterates enumerate(forms) without slicing). -/
def extractFormComponents (page : List HtmlElement) : List FormComponent :=
  numberForms 1 (page.filter fun e => e.tag == "form")

theorem numberCards_length : ∀ (l : List HtmlElement) (k : Nat),
    (numberCards k l).length = l.length
  | [], _ => rfl
  | _ :: rest, k => by
    simp only [numberCards, List.length_cons]
    rw [numberCards_length rest (k + 1)]

theorem numberCards_get_id : ∀ (l : List HtmlElement) (k i : Nat)
    (h : i < (numberCards k l).length),
    ((numberCards k l).get ⟨i, h⟩).id = "card_" ++ toString (k + i)
  | [], _, i, h => absurd h (by simp [numberCards])
  | e :: rest, k, 0, h => by simp [numberCards, mkCardComponent]
  | e :: rest, k, i + 1, h => by
    simp only [numberCards, List.get_cons_succ]
    rw [numberCards_get_id rest (k + 1) i]
    have : k + 1 + i = k + (i + 1) := by omega
    rw [this]

theorem numberCards_map_html : ∀ (l : List HtmlElement) (k : Nat),
    (numberCards k l).map CardComponent.html = l.map HtmlElement.html
  | [], _ => rfl
  | e :: rest, k => by
    simp only [numberCards, List.map_cons, mkCardComponent]
    rw [numberCards_map_html rest (k + 1)]

theorem numberForms_length : ∀ (l : List HtmlElement) (k : Nat),
    (numberForms k l).length = l.length
  | [], _ => rfl
  | _ :: rest, k => by
    simp only [numberForms, List.length_cons]
    rw [numberForms_length rest (k + 1)]

/-- Claim C7 (amended): a page with at least 50 card-like elements yields
exactly 15 card records, in document order, with ids card_1 … card_15; the
card cap of 15 is enforced, but not all fourteen component types have a cap
(forms and tables are emitted uncapped). -/
theorem claim_C7_card_cap (page : List HtmlElement)
    (h : 50 ≤ (page.filter isCardLike).length) :
    (extractCardComponents page).length = 15
    ∧ (∀ i (hi : i < (extractCardComponents page).length),
        ((extractCardComponents page).get ⟨i, hi⟩).id = "card_" ++ toString (i + 1))
    ∧ (extractCardComponents page).map CardComponent.html =
        ((page.filter isCardLike).take 15).map HtmlElement.html := by
  have hlen : ((page.filter isCardLike).take 15).length = 15 := by
    rw [List.length_take]
    omega
  refine ⟨?_, ?_, ?_⟩
  · unfold extractCardComponents
    rw [numberCards_length, hlen]
  · intro i hi
    unfold extractCardComponents
    rw [numberCards_get_id]
    have : 1 + i = i + 1 := by omega
    rw [this]
  · unfold extractCardComponents
    rw [numberCards_map_html]

/-- A representative card-like element (a div with class "news-card"). -/
def demoCardElement : HtmlElement :=
  ⟨"div", ["news-card"], "<div class=news-card></div>", "story", 2, 1, 0, []⟩

/-- A representative form element. -/
def demoFormElement : HtmlElement :=
  ⟨"form", [], "<form></form>", "", 0, 0, 3, []⟩

/-- Claim C7, witness: a synthetic page of 50 identical card-like divs is
capped at exactly 15 records. -/
theorem claim_C7_card_cap_witness :
    (extractCardComponents (List.replicate 50 demoCardElement)).length = 15 :=
  (claim_C7_card_cap (List.replicate 50 demoCardElement) (by decide)).1

/-- Claim C7, counterexample: the form extractor has no cap — a page with 21
forms yields 21 records, above the 3–20 cap range the claim asserts for
every component type. -/
theorem claim_C7_counterexample :
    (extractFormComponents (List.replicate 21 demoFormElement)).length = 21
    ∧ ¬ (extractFormComponents (List.replicate 21 demoFormElement)).length ≤ 20 := by
  have h : (extractFormComponents (List.replicate 21 demoFormElement)).length = 21 := by
    unfold extractFormComponents
    rw [numberForms_length]
    decide
  exact ⟨h, by omega⟩

/-! ## Multi-strategy page analyzer: per-strategy isolation -/

/-- Stored outcome of one analysis strategy: the strategy's structured result
or the inline error marker the except-branch writes. -/
inductive StrategyEntry (R : Type) where
  | result (r : R)
  | errorMarker (msg : String)
deriving Repr, DecidableEq

/-- The per-strategy try/except loop of extract_and_analyze_single_url: each
strategy runs on the page; a raised exception is caught at the call site and
replaced by an error marker, without affecting the other iterations. -/
def runAnalysisStrategies {P R : Type} (strategies : List (String × (P → Except String R)))
    (page : P) : List (String × StrategyEntry R) :=
  strategies.map fun nf =>
    (nf.1,
      match nf.2 page with
      | Except.ok r => StrategyEntry.result r
      | Except.error e => StrategyEntry.errorMarker e)

/-- The analysis_strategies dict of AdvancedComponentAnalyzer, in insertion
order; the eight strategy functions are abstract parameters (their bodies
are outside scope of the isolation claim). -/
def analysisStrategies {P R : Type}
    (semantic structural contentType interactive layout seo accessibility performance :
      P → Except String R) : List (String × (P → Except String R)) :=
  [("semantic", semantic), ("structural", structural), ("content_type", contentType),
   ("interactive", interactive), ("layout", layout), ("seo", seo),
   ("accessibility", accessibility), ("performance", performance)]

/-- Claim C8: when the SEO strategy raises, its entry in the combined record
is the error marker, and each of the other seven strategies still appears
with its complete, unaffected output. -/
theorem claim_C8_strategy_isolation {P R : Type} (page : P)
    (fsem fstr fcon fint flay fseo facc fper : P → Except String R)
    (e : String) (rsem rstr rcon rint rlay racc rper : R)
    (hseo : fseo page = Except.error e)
    (h1 : fsem page = Except.ok rsem) (h2 : fstr page = Except.ok rstr)
    (h3 : fcon page = Except.ok rcon) (h4 : fint page = Except.ok rint)
    (h5 : flay page = Except.ok rlay) (h6 : facc page = Except.ok racc)
    (h7 : fper page = Except.ok rper) :
    runAnalysisStrategies
        (analysisStrategies fsem fstr fcon fint flay fseo facc fper) page =
      [("semantic", StrategyEntry.result rsem), ("structural", StrategyEntry.result rstr),
       ("content_type", StrategyEntry.result rcon), ("interactive", StrategyEntry.result rint),
       ("layout", StrategyEntry.result rlay), ("seo", StrategyEntry.errorMarker e),
       ("accessibility", StrategyEntry.result racc),
       ("performance", StrategyEntry.result rper)] := by
  simp [runAnalysisStrategies, analysisStrategies, hseo, h1, h2, h3, h4, h5, h6, h7]

/-- Claim C8, witness: the theorem at a concrete instantiation in which the
SEO strategy throws and the others return numeric results. -/
theorem claim_C8_strategy_isolation_witness :
    runAnalysisStrategies
        (analysisStrategies (P := Unit) (R := Nat)
          (fun _ => Except.ok 1) (fun _ => Except.ok 2) (fun _ => Except.ok 3)
          (fun _ => Except.ok 4) (fun _ => Except.ok 5) (fun _ => Except.error "boom")
          (fun _ => Except.ok 7) (fun _ => Except.ok 8)) () =
      [("semantic", StrategyEntry.result 1), ("structural", StrategyEntry.result 2),
       ("content_type", StrategyEntry.result 3), ("interactive", StrategyEntry.result 4),
       ("layout", StrategyEntry.result 5), ("seo", StrategyEntry.errorMarker "boom"),
       ("accessibility", StrategyEntry.result 7), ("performance", StrategyEntry.result 8)] :=
  claim_C8_strategy_isolation () _ _ _ _ _ _ _ _ "boom" 1 2 3 4 5 7 8
    rfl rfl rfl rfl rfl rfl rfl rfl

/-! ## Extraction idempotency (extract_single_url) -/

/-- Observable outcome of one extract_single_url call: the returned boolean,
the number of HTTP fetches performed wrapper, and the artifact paths written. -/
structure ExtractOutcome where
  success : Bool
  fetchCalls : Nat
  writes : List String
deriving Repr, DecidableEq

/-- Model of HTMLExtractor.extract_single_url.  The filesystem is the
predicate `fsHas` on paths, the HTTP session is the oracle `fetch` (None
models a raised request exception), and the component-file writes performed
by extract_components are abstracted by `componentWrites` on the response
body.  When the primary artifact page.html already exists the function
returns True immediately: no fetch, no writes.  A urlparse failure inside
create_page_identifier is caught by the outer except and returns False
before any fetch.  advanced_component_analyzer.extract_and_analyze_single_url
has the identical guard structure with comprehensive_analysis.json as the
primary artifact. -/
def extractSingleUrl (fsHas : String → Bool) (fetch : String → Option String)
    (componentWrites : String → List String) (outputDir url : String) : ExtractOutcome :=
  match createPageIdentifier url with
  | none => ⟨false, 0, []⟩
  | some pageId =>
    let pageDir := outputDir ++ "/" ++ pageId
    let htmlFile := pageDir ++ "/page.html"
    if fsHas htmlFile then ⟨true, 0, []⟩
    else
      match fetch url with
      | none => ⟨false, 1, []⟩
      | some body =>
        ⟨true, 1, htmlFile :: (pageDir ++ "/url_info.json") :: componentWrites body⟩

/-- Total fetch count of extract_all over a URL list. -/
def totalFetchCalls (fsHas : String → Bool) (fetch : String → Option String)
    (componentWrites : String → List String) (outputDir : String)
    (urls : List String) : Nat :=
  (urls.map fun u => (extractSingleUrl fsHas fetch componentWrites outputDir u).fetchCalls).sum

/-- Claim C9: when a URL's primary artifact exists, extraction returns
success with zero fetches and zero writes; consequently a re-run over a URL
list whose outputs are all present performs zero fetch calls in total. -/
theorem claim_C9_idempotent_resume (fsHas : String → Bool) (fetch : String → Option String)
    (componentWrites : String → List String) (outputDir : String) :
    (∀ url pageId, createPageIdentifier url = some pageId →
      fsHas (outputDir ++ "/" ++ pageId ++ "/page.html") = true →
      extractSingleUrl fsHas fetch componentWrites outputDir url = ⟨true, 0, []⟩)
    ∧ (∀ urls : List String,
        (∀ url ∈ urls, ∀ pageId, createPageIdentifier url = some pageId →
          fsHas (outputDir ++ "/" ++ pageId ++ "/page.html") = true) →
        totalFetchCalls fsHas fetch componentWrites outputDir urls = 0) := by
  have hsingle : ∀ url pageId, createPageIdentifier url = some pageId →
      fsHas (outputDir ++ "/" ++ pageId ++ "/page.html") = true →
      extractSingleUrl fsHas fetch componentWrites outputDir url = ⟨true, 0, []⟩ := by
    intro url pageId hpid hfs
    unfold extractSingleUrl
    rw [hpid]
    simp only [hfs]
    rfl
  refine ⟨hsingle, ?_⟩
  intro urls hall
  induction urls with
  | nil => rfl
  | cons u rest ih =>
    have hrest := ih fun url hu => hall url (List.mem_cons_of_mem u hu)
    have hu : (extractSingleUrl fsHas fetch componentWrites outputDir u).fetchCalls = 0 := by
      cases hpid : createPageIdentifier u with
      | none =>
        unfold extractSingleUrl
        rw [hpid]
      | some pageId =>
        rw [hsingle u pageId hpid (hall u (List.mem_cons_self u rest) pageId hpid)]
    unfold totalFetchCalls at hrest ⊢
    simp only [List.map_cons, List.sum_cons, hu, hrest]

/-- Claim C9, witness: with every artifact present the second run performs
zero fetches over a two-URL list. -/
theorem claim_C9_idempotent_resume_witness :
    totalFetchCalls (fun _ => true) (fun _ => none) (fun _ => []) "out"
      ["http://example.com/a", "http://example.com/b"] = 0 :=
  (claim_C9_idempotent_resume (fun _ => true) (fun _ => none) (fun _ => []) "out").2
    ["http://example.com/a", "http://example.com/b"] (fun _ _ _ _ => rfl)

/-! ## Crawl frontier / scheduler (DynamicWebCrawler.crawl)

URLs are an abstract type with decidable equality (the scheduler never looks
inside a URL: link filtering happens inside crawl_with_requests, which the
parameter `fetch` abstracts together with the HTTP session; `fetch u = none`
models both fetch strategies failing).  The thread pool of each batch is
serialized in submission order.  `dispatched` and `fetched` are ghost fields
recording each executor.submit and each HTTP request. -/

/-- Configuration fields of DynamicWebCrawler.__init__ that the crawl loop
reads (dynamic_discovery only changes pool sizes, which the serialized model
does not observe). -/
structure CrawlConfig where
  maxDepth : Nat
  maxPages : Nat
  exhaustive : Bool
deriving Repr, DecidableEq

/-- Mutable crawler state: visited_urls (kept in insertion order),
crawled_data (url and depth of each page record), url_queue,
all_discovered_links, plus the two ghost logs. -/
structure CrawlState (α : Type) where
  visited : List α
  crawledData : List (α × Nat)
  urlQueue : List (α × Nat)
  allDiscoveredLinks : List α
  dispatched : List α
  fetched : List α
deriving Repr, DecidableEq

/-- State right after __init__: empty sets, the base URL queued at depth 0. -/
def initCrawlState {α : Type} (baseUrl : α) : CrawlState α :=
  ⟨[], [], [(baseUrl, 0)], [], [], []⟩

/-- set.add on an insertion-ordered duplicate-free list. -/
def addOnce {α : Type} [DecidableEq α] (l : List α) (a : α) : List α :=
  if a ∈ l then l else l ++ [a]

/-- Model of crawl_single_url: give up immediately at the page cap, otherwise
fetch (requests with selenium fallback, collapsed into one oracle), append
the page record under the lock when still below the cap, merge the links
into all_discovered_links, and return the links for further crawling when in
exhaustive mode or below the depth limit. -/
def crawlSingleUrl {α : Type} [DecidableEq α] (cfg : CrawlConfig)
    (fetch : α → Option (List α)) (st : CrawlState α) (url : α) (depth : Nat) :
    CrawlState α × List α :=
  if cfg.maxPages ≤ st.crawledData.length then (st, [])
  else
    let st1 := { st with fetched := st.fetched ++ [url] }
    match fetch url with
    | none => (st1, [])
    | some links =>
      let st2 :=
        if st1.crawledData.length < cfg.maxPages then
          { st1 with crawledData := st1.crawledData ++ [(url, depth)] }
        else st1
      let st3 := { st2 with allDiscoveredLinks := links.foldl addOnce st2.allDiscoveredLinks }
      (st3, if cfg.exhaustive || decide (depth < cfg.maxDepth) then links else [])

/-- One link of the result-join loop of crawl: enqueue at depth + 1 when the
link is not visited, not already queued, the page cap is not reached, and
(in limited mode) the depth bound allows it. -/
def enqueueOne {α : Type} [DecidableEq α] (cfg : CrawlConfig) (depth : Nat)
    (st : CrawlState α) (link : α) : CrawlState α :=
  if link ∉ st.visited ∧ link ∉ st.urlQueue.map Prod.fst ∧
      st.crawledData.length < cfg.maxPages then
    if cfg.exhaustive || decide (depth + 1 ≤ cfg.maxDepth) then
      { st with urlQueue := st.urlQueue ++ [(link, depth + 1)] }
    else st
  else st

/-- The result-join loop of crawl over all links returned by one future. -/
def enqueueLinks {α : Type} [DecidableEq α] (cfg : CrawlConfig) (depth : Nat)
    (st : CrawlState α) (links : List α) : CrawlState α :=
  links.foldl (enqueueOne cfg depth) st

/-- The batch-draining loop of crawl: pop up to `k` entries off the queue
head; a URL already visited is dropped, a fresh URL is added to the visited
set and to the batch.  Arguments are the visited list and the queue; returns
(visited', queue', batch). -/
def popLoop {α : Type} [DecidableEq α] :
    Nat → List α → List (α × Nat) → List α × List (α × Nat) × List (α × Nat)
  | 0, vis, q => (vis, q, [])
  | _ + 1, vis, [] => (vis, [], [])
  | k + 1, vis, (url, depth) :: rest =>
    if url ∈ vis then popLoop k vis rest
    else
      let r := popLoop k (vis ++ [url]) rest
      (r.1, r.2.1, (url, depth) :: r.2.2)

/-- State-level wrapper of `popLoop` with the batch size min(3, len(queue)). -/
def popBatch {α : Type} [DecidableEq α] (st : CrawlState α) :
    CrawlState α × List (α × Nat) :=
  let r := popLoop (min 3 st.urlQueue.length) st.visited st.urlQueue
  ({ st with visited := r.1, urlQueue := r.2.1 }, r.2.2)

/-- The executor section serialized in submission order: each batch entry is
dispatched (ghost log), crawled, and its returned links are enqueued. -/
def processBatch {α : Type} [DecidableEq α] (cfg : CrawlConfig)
    (fetch : α → Option (List α)) : CrawlState α → List (α × Nat) → CrawlState α
  | st, [] => st
  | st, (url, depth) :: rest =>
    let st1 := { st with dispatched := st.dispatched ++ [url] }
    let p := crawlSingleUrl cfg fetch st1 url depth
    processBatch cfg fetch (enqueueLinks cfg depth p.1 p.2) rest

/-- Negation of the while-condition of crawl. -/
def crawlStoppedB {α : Type} (cfg : CrawlConfig) (st : CrawlState α) : Bool :=
  st.urlQueue.isEmpty || decide (cfg.maxPages ≤ st.crawledData.length)

/-- One iteration of the while-loop of crawl (the break on an empty batch
included). -/
def crawlStep {α : Type} [DecidableEq α] (cfg : CrawlConfig)
    (fetch : α → Option (List α)) (st : CrawlState α) : CrawlState α :=
  if crawlStoppedB cfg st then st
  else
    let p := popBatch st
    if p.2.isEmpty then p.1 else processBatch cfg fetch p.1 p.2

/-- The while-loop of crawl, with explicit fuel bounding the number of
iterations; `crawl_terminates` below shows some fuel always reaches a
stopped state, on which further fuel is a no-op. -/
def crawlFuel {α : Type} [DecidableEq α] (cfg : CrawlConfig)
    (fetch : α → Option (List α)) : Nat → CrawlState α → CrawlState α
  | 0, st => st
  | n + 1, st =>
    if crawlStoppedB cfg st then st
    else
      let p := popBatch st
      if p.2.isEmpty then p.1 else crawlFuel cfg fetch n (processBatch cfg fetch p.1 p.2)

theorem popLoop_spec {α : Type} [DecidableEq α] :
    ∀ (k : Nat) (vis : List α) (q : List (α × Nat)),
      (popLoop k vis q).1 = vis ++ (popLoop k vis q).2.2.map Prod.fst
      ∧ ((popLoop k vis q).2.2.map Prod.fst).Nodup
      ∧ (∀ u ∈ (popLoop k vis q).2.2.map Prod.fst, u ∉ vis)
      ∧ ∃ m, (popLoop k vis q).2.1 = q.drop m
          ∧ (∀ u ∈ (popLoop k vis q).2.2.map Prod.fst, u ∈ (q.take m).map Prod.fst)
          ∧ (1 ≤ k → q ≠ [] → 1 ≤ m) := by
  intro k
  induction k with
  | zero =>
    intro vis q
    refine ⟨by simp [popLoop], by simp [popLoop], by simp [popLoop], 0, by simp [popLoop], by simp [popLoop], by omega⟩
  | succ k ih =>
    intro vis q
    match q with
    | [] =>
      refine ⟨by simp [popLoop], by simp [popLoop], by simp [popLoop], 0, by simp [popLoop], by simp [popLoop], ?_⟩
      intro _ hq
      exact absurd rfl hq
    | (url, depth) :: rest =>
      by_cases hv : url ∈ vis
      · have hred : popLoop (k + 1) vis ((url, depth) :: rest) = popLoop k vis rest := by
          simp [popLoop, hv]
        obtain ⟨h1, h2, h3, m, hm1, hm2, hm3⟩ := ih vis rest
        rw [hred]
        refine ⟨h1, h2, h3, m + 1, ?_, ?_, fun _ _ => by omega⟩
        · rw [List.drop_succ_cons]
          exact hm1
        · intro u hu
          rw [List.take_succ_cons, List.map_cons]
          exact List.mem_cons_of_mem _ (hm2 u hu)
      · have hred : popLoop (k + 1) vis ((url, depth) :: rest) =
            ((popLoop k (vis ++ [url]) rest).1,
             (popLoop k (vis ++ [url]) rest).2.1,
             (url, depth) :: (popLoop k (vis ++ [url]) rest).2.2) := by
          simp [popLoop, hv]
        obtain ⟨h1, h2, h3, m, hm1, hm2, hm3⟩ := ih (vis ++ [url]) rest
        rw [hred]
        refine ⟨?_, ?_, ?_, m + 1, ?_, ?_, fun _ _ => by omega⟩
        · simp only [List.map_cons]
          rw [h1, List.append_assoc, List.singleton_append]
        · simp only [List.map_cons]
          rw [List.nodup_cons]
          refine ⟨fun hmem => ?_, h2⟩
          exact h3 url hmem (List.mem_append_right vis (List.mem_singleton.mpr rfl))
        · simp only [List.map_cons]
          intro u hu
          rcases List.mem_cons.mp hu with h | h
          · exact h ▸ hv
          · intro hvis
            exact h3 u h (List.mem_append_left _ hvis)
        · rw [List.drop_succ_cons]
          exact hm1
        · simp only [List.map_cons]
          intro u hu
          rw [List.take_succ_cons, List.map_cons]
          rcases List.mem_cons.mp hu with h | h
          · exact h ▸ List.mem_cons_self _ _
          · exact List.mem_cons_of_mem _ (hm2 u h)

theorem crawlSingleUrl_spec {α : Type} [DecidableEq α] (cfg : CrawlConfig)
    (fetch : α → Option (List α)) (st : CrawlState α) (url : α) (depth : Nat) :
    (crawlSingleUrl cfg fetch st url depth).1.visited = st.visited
    ∧ (crawlSingleUrl cfg fetch st url depth).1.dispatched = st.dispatched
    ∧ (crawlSingleUrl cfg fetch st url depth).1.urlQueue = st.urlQueue
    ∧ ((crawlSingleUrl cfg fetch st url depth).1.crawledData = st.crawledData
          ∧ (crawlSingleUrl cfg fetch st url depth).2 = []
        ∨ st.crawledData.length < cfg.maxPages
          ∧ (crawlSingleUrl cfg fetch st url depth).1.crawledData
              = st.crawledData ++ [(url, depth)]) := by
  unfold crawlSingleUrl
  by_cases hg : cfg.maxPages ≤ st.crawledData.length
  · rw [if_pos hg]
    exact ⟨rfl, rfl, rfl, Or.inl ⟨rfl, rfl⟩⟩
  · rw [if_neg hg]
    cases hf : fetch url with
    | none => exact ⟨rfl, rfl, rfl, Or.inl ⟨rfl, rfl⟩⟩
    | some links =>
      have hlt : st.crawledData.length < cfg.maxPages := by omega
      simp only []
      rw [if_pos (show ({ st with fetched := st.fetched ++ [url] } :
        CrawlState α).crawledData.length < cfg.maxPages from hlt)]
      exact ⟨rfl, rfl, rfl, Or.inr ⟨hlt, rfl⟩⟩

theorem enqueueOne_fields {α : Type} [DecidableEq α] (cfg : CrawlConfig) (depth : Nat)
    (st : CrawlState α) (link : α) :
    (enqueueOne cfg depth st link).visited = st.visited
    ∧ (enqueueOne cfg depth st link).dispatched = st.dispatched
    ∧ (enqueueOne cfg depth st link).crawledData = st.crawledData
    ∧ (enqueueOne cfg depth st link).fetched = st.fetched
    ∧ ((enqueueOne cfg depth st link).urlQueue = st.urlQueue
        ∨ link ∉ st.visited ∧ link ∉ st.urlQueue.map Prod.fst
          ∧ (enqueueOne cfg depth st link).urlQueue = st.urlQueue ++ [(link, depth + 1)]) := by
  unfold enqueueOne
  by_cases h1 : link ∉ st.visited ∧ link ∉ st.urlQueue.map Prod.fst ∧
      st.crawledData.length < cfg.maxPages
  · rw [if_pos h1]
    by_cases h2 : (cfg.exhaustive || decide (depth + 1 ≤ cfg.maxDepth)) = true
    · rw [if_pos h2]
      exact ⟨rfl, rfl, rfl, rfl, Or.inr ⟨h1.1, h1.2.1, rfl⟩⟩
    · rw [if_neg h2]
      exact ⟨rfl, rfl, rfl, rfl, Or.inl rfl⟩
  · rw [if_neg h1]
    exact ⟨rfl, rfl, rfl, rfl, Or.inl rfl⟩

theorem enqueueLinks_fields {α : Type} [DecidableEq α] (cfg : CrawlConfig) (depth : Nat) :
    ∀ (links : List α) (st : CrawlState α),
      (enqueueLinks cfg depth st links).visited = st.visited
      ∧ (enqueueLinks cfg depth st links).dispatched = st.dispatched
      ∧ (enqueueLinks cfg depth st links).crawledData = st.crawledData
      ∧ (enqueueLinks cfg depth st links).fetched = st.fetched
      ∧ ∃ t, (enqueueLinks cfg depth st links).urlQueue = st.urlQueue ++ t := by
  intro links
  induction links with
  | nil =>
    intro st
    exact ⟨rfl, rfl, rfl, rfl, [], by simp [enqueueLinks]⟩
  | cons l ls ih =>
    intro st
    have hred : enqueueLinks cfg depth st (l :: ls) =
        enqueueLinks cfg depth (enqueueOne cfg depth st l) ls := by
      simp [enqueueLinks]
    obtain ⟨e1, e2, e3, e4, e5⟩ := enqueueOne_fields cfg depth st l
    obtain ⟨i1, i2, i3, i4, t, i5⟩ := ih (enqueueOne cfg depth st l)
    rw [hred]
    refine ⟨i1.trans e1, i2.trans e2, i3.trans e3, i4.trans e4, ?_⟩
    rcases e5 with h | ⟨_, _, h⟩
    · exact ⟨t, by rw [i5, h]⟩
    · exact ⟨(l, depth + 1) :: t, by rw [i5, h, List.append_assoc, List.singleton_append]⟩

theorem processBatch_fields {α : Type} [DecidableEq α] (cfg : CrawlConfig)
    (fetch : α → Option (List α)) :
    ∀ (batch : List (α × Nat)) (st : CrawlState α),
      (processBatch cfg fetch st batch).visited = st.visited
      ∧ (processBatch cfg fetch st batch).dispatched = st.dispatched ++ batch.map Prod.fst
      ∧ (∃ t, (processBatch cfg fetch st batch).crawledData = st.crawledData ++ t)
      ∧ ((processBatch cfg fetch st batch).crawledData.length = st.crawledData.length →
          (processBatch cfg fetch st batch).urlQueue = st.urlQueue)
      ∧ (st.crawledData.length ≤ cfg.maxPages →
          (processBatch cfg fetch st batch).crawledData.length ≤ cfg.maxPages) := by
  intro batch
  induction batch with
  | nil =>
    intro st
    exact ⟨rfl, by simp [processBatch], ⟨[], by simp [processBatch]⟩,
      fun _ => rfl, fun h => h⟩
  | cons ud rest ih =>
    intro st
    obtain ⟨url, depth⟩ := ud
    have hred : processBatch cfg fetch st ((url, depth) :: rest) =
        processBatch cfg fetch
          (enqueueLinks cfg depth
            (crawlSingleUrl cfg fetch { st with dispatched := st.dispatched ++ [url] } url depth).1
            (crawlSingleUrl cfg fetch { st with dispatched := st.dispatched ++ [url] } url depth).2)
          rest := by
      simp [processBatch]
    set st1 := { st with dispatched := st.dispatched ++ [url] } with hst1
    obtain ⟨c1, c2, c3, c4⟩ := crawlSingleUrl_spec cfg fetch st1 url depth
    set p := crawlSingleUrl cfg fetch st1 url depth with hp
    obtain ⟨e1, e2, e3, e4, te, e5⟩ := enqueueLinks_fields cfg depth p.2 p.1
    set st2 := enqueueLinks cfg depth p.1 p.2 with hst2
    obtain ⟨i1, i2, i3, i4, i5⟩ := ih st2
    rw [hred]
    have hst2crawl : ∃ t0, st2.crawledData = st.crawledData ++ t0 := by
      rcases c4 with ⟨hsame, _⟩ | ⟨_, hgrow⟩
      · exact ⟨[], by rw [e3, hsame]; simp⟩
      · exact ⟨[(url, depth)], by rw [e3, hgrow]⟩
    refine ⟨?_, ?_, ?_, ?_, ?_⟩
    · rw [i1, e1, c1]
    · rw [i2, e2, c2]
      simp only [hst1, List.map_cons]
      rw [List.append_assoc, List.singleton_append]
    · obtain ⟨t0, ht0⟩ := hst2crawl
      obtain ⟨t1, ht1⟩ := i3
      exact ⟨t0 ++ t1, by rw [ht1, ht0, List.append_assoc]⟩
    · intro hlen
      obtain ⟨t0, ht0⟩ := hst2crawl
      obtain ⟨t1, ht1⟩ := i3
      have hfl : (processBatch cfg fetch st2 rest).crawledData.length
          = st2.crawledData.length + t1.length := by
        rw [ht1]
        simp
      have hsl : st2.crawledData.length = st.crawledData.length + t0.length := by
        rw [ht0]
        simp
      have hst2len : (processBatch cfg fetch st2 rest).crawledData.length
          = st2.crawledData.length := by omega
      have hst1len : st1.crawledData.length = st.crawledData.length := rfl
      have hp2nil : p.2 = [] := by
        rcases c4 with ⟨_, hnil⟩ | ⟨_, hgrow⟩
        · exact hnil
        · exfalso
          have hgl : st2.crawledData.length = st1.crawledData.length + 1 := by
            rw [e3, hgrow]
            simp
          omega
      have hst2p1 : st2 = p.1 := by
        rw [hst2, hp2nil]
        rfl
      rw [i4 hst2len, hst2p1, c3]
    · intro hcap
      refine i5 ?_
      have hst1len : st1.crawledData.length = st.crawledData.length := rfl
      rcases c4 with ⟨hsame, _⟩ | ⟨hlt, hgrow⟩
      · rw [e3, hsame]
        exact hst1len ▸ hcap
      · have hgl : st2.crawledData.length = st1.crawledData.length + 1 := by
          rw [e3, hgrow]
          simp
        omega

/-- Loop invariant of crawl: the page records never exceed the cap, queued
URLs are unvisited, and the queue holds no duplicate URL. -/
def crawlInv {α : Type} (cfg : CrawlConfig) (st : CrawlState α) : Prop :=
  st.crawledData.length ≤ cfg.maxPages
  ∧ (∀ u ∈ st.urlQueue.map Prod.fst, u ∉ st.visited)
  ∧ (st.urlQueue.map Prod.fst).Nodup

theorem enqueueOne_inv {α : Type} [DecidableEq α] (cfg : CrawlConfig) (depth : Nat)
    (st : CrawlState α) (link : α) (hInv : crawlInv cfg st) :
    crawlInv cfg (enqueueOne cfg depth st link) := by
  obtain ⟨hcap, hdis, hnd⟩ := hInv
  obtain ⟨e1, _, e3, _, e5⟩ := enqueueOne_fields cfg depth st link
  refine ⟨by rw [e3]; exact hcap, ?_, ?_⟩
  · rw [e1]
    rcases e5 with h | ⟨hnv, _, h⟩
    · rw [h]
      exact hdis
    · rw [h]
      simp only [List.map_append, List.map_cons, List.map_nil]
      intro u hu
      rcases List.mem_append.mp hu with h1 | h1
      · exact hdis u h1
      · rw [List.mem_singleton] at h1
        exact h1 ▸ hnv
  · rcases e5 with h | ⟨_, hnq, h⟩
    · rw [h]
      exact hnd
    · rw [h]
      simp only [List.map_append, List.map_cons, List.map_nil]
      rw [List.nodup_append]
      refine ⟨hnd, List.nodup_singleton _, ?_⟩
      intro a ha hmem
      rw [List.mem_singleton] at hmem
      exact hnq (hmem ▸ ha)

theorem enqueueLinks_inv {α : Type} [DecidableEq α] (cfg : CrawlConfig) (depth : Nat) :
    ∀ (links : List α) (st : CrawlState α), crawlInv cfg st →
      crawlInv cfg (enqueueLinks cfg depth st links) := by
  intro links
  induction links with
  | nil =>
    intro st hInv
    exact hInv
  | cons l ls ih =>
    intro st hInv
    have hred : enqueueLinks cfg depth st (l :: ls) =
        enqueueLinks cfg depth (enqueueOne cfg depth st l) ls := by
      simp [enqueueLinks]
    rw [hred]
    exact ih _ (enqueueOne_inv cfg depth st l hInv)

theorem crawlSingleUrl_inv {α : Type} [DecidableEq α] (cfg : CrawlConfig)
    (fetch : α → Option (List α)) (st : CrawlState α) (url : α) (depth : Nat)
    (hInv : crawlInv cfg st) :
    crawlInv cfg (crawlSingleUrl cfg fetch st url depth).1 := by
  obtain ⟨hcap, hdis, hnd⟩ := hInv
  obtain ⟨c1, _, c3, c4⟩ := crawlSingleUrl_spec cfg fetch st url depth
  refine ⟨?_, ?_, ?_⟩
  · rcases c4 with ⟨hsame, _⟩ | ⟨hlt, hgrow⟩
    · rw [hsame]
      exact hcap
    · rw [hgrow]
      simp only [List.length_append, List.length_cons, List.length_nil]
      omega
  · rw [c1, c3]
    exact hdis
  · rw [c3]
    exact hnd

theorem processBatch_inv {α : Type} [DecidableEq α] (cfg : CrawlConfig)
    (fetch : α → Option (List α)) :
    ∀ (batch : List (α × Nat)) (st : CrawlState α), crawlInv cfg st →
      crawlInv cfg (processBatch cfg fetch st batch) := by
  intro batch
  induction batch with
  | nil =>
    intro st hInv
    exact hInv
  | cons ud rest ih =>
    intro st hInv
    obtain ⟨url, depth⟩ := ud
    have hred : processBatch cfg fetch st ((url, depth) :: rest) =
        processBatch cfg fetch
          (enqueueLinks cfg depth
            (crawlSingleUrl cfg fetch { st with dispatched := st.dispatched ++ [url] } url depth).1
            (crawlSingleUrl cfg fetch { st with dispatched := st.dispatched ++ [url] } url depth).2)
          rest := by
      simp [processBatch]
    rw [hred]
    have hInv1 : crawlInv cfg ({ st with dispatched := st.dispatched ++ [url] } : CrawlState α) :=
      hInv
    exact ih _ (enqueueLinks_inv cfg depth _ _
      (crawlSingleUrl_inv cfg fetch _ url depth hInv1))

theorem popLoop_batch_ne {α : Type} [DecidableEq α] (k : Nat) (vis : List α)
    (url : α) (depth : Nat) (rest : List (α × Nat)) (h : url ∉ vis) :
    (popLoop (k + 1) vis ((url, depth) :: rest)).2.2 ≠ [] := by
  simp [popLoop, h]

theorem popBatch_spec {α : Type} [DecidableEq α] (st : CrawlState α)
    (hdis : ∀ u ∈ st.urlQueue.map Prod.fst, u ∉ st.visited)
    (hnd : (st.urlQueue.map Prod.fst).Nodup) :
    (popBatch st).1.visited = st.visited ++ (popBatch st).2.map Prod.fst
    ∧ (popBatch st).1.dispatched = st.dispatched
    ∧ (popBatch st).1.crawledData = st.crawledData
    ∧ (popBatch st).1.fetched = st.fetched
    ∧ ((popBatch st).2.map Prod.fst).Nodup
    ∧ (∀ u ∈ (popBatch st).2.map Prod.fst, u ∉ st.visited)
    ∧ (∀ u ∈ (popBatch st).1.urlQueue.map Prod.fst, u ∉ (popBatch st).1.visited)
    ∧ ((popBatch st).1.urlQueue.map Prod.fst).Nodup
    ∧ (st.urlQueue ≠ [] →
        (popBatch st).2 ≠ [] ∧ (popBatch st).1.urlQueue.length < st.urlQueue.length) := by
  obtain ⟨h1, h2, h3, m, hm1, hm2, hm3⟩ :=
    popLoop_spec (min 3 st.urlQueue.length) st.visited st.urlQueue
  have hq' : (popBatch st).1.urlQueue =
      (popLoop (min 3 st.urlQueue.length) st.visited st.urlQueue).2.1 := rfl
  have hv' : (popBatch st).1.visited =
      (popLoop (min 3 st.urlQueue.length) st.visited st.urlQueue).1 := rfl
  have hb' : (popBatch st).2 =
      (popLoop (min 3 st.urlQueue.length) st.visited st.urlQueue).2.2 := rfl
  have hsplit : st.urlQueue.map Prod.fst =
      (st.urlQueue.take m).map Prod.fst ++ (st.urlQueue.drop m).map Prod.fst := by
    rw [← List.map_append, List.take_append_drop]
  obtain ⟨hndTake, hndDrop, hdisTD⟩ := (List.nodup_append.mp (hsplit ▸ hnd))
  refine ⟨by rw [hv', hb']; exact h1, rfl, rfl, rfl, hb' ▸ h2, hb' ▸ h3, ?_, ?_, ?_⟩
  · intro u hu
    rw [hq', hm1] at hu
    have huq : u ∈ st.urlQueue.map Prod.fst := by
      rw [hsplit]
      exact List.mem_append_right _ hu
    rw [hv', h1]
    intro hmem
    rcases List.mem_append.mp hmem with hc | hc
    · exact hdis u huq hc
    · exact hdisTD (hm2 u (hb' ▸ hc)) hu
  · rw [hq', hm1]
    exact hndDrop
  · intro hne
    have hk : 1 ≤ min 3 st.urlQueue.length := by
      have : 1 ≤ st.urlQueue.length := by
        cases hq : st.urlQueue with
        | nil => exact absurd hq hne
        | cons a l => simp [hq]
      omega
    have hm : 1 ≤ m := hm3 hk hne
    constructor
    · rw [hb']
      cases hq : st.urlQueue with
      | nil => exact absurd hq hne
      | cons ud rest =>
        obtain ⟨url, depth⟩ := ud
        have hfresh : url ∉ st.visited := by
          refine hdis url ?_
          rw [hq]
          simp
        have hmin : min 3 ((url, depth) :: rest).length = min 2 rest.length + 1 := by
          simp only [List.length_cons]
          omega
        rw [hmin]
        exact popLoop_batch_ne _ _ url depth rest hfresh
    · rw [hq', hm1, List.length_drop]
      have : 1 ≤ st.urlQueue.length := by
        cases hq : st.urlQueue with
        | nil => exact absurd hq hne
        | cons a l => simp [hq]
      omega

theorem isEmpty_false_ne {α : Type} {l : List α} (h : l.isEmpty = false) : l ≠ [] := by
  intro hl
  rw [hl] at h
  exact absurd h (by simp)

theorem crawlStoppedB_false {α : Type} {cfg : CrawlConfig} {st : CrawlState α}
    (hs : crawlStoppedB cfg st = false) :
    st.urlQueue ≠ [] ∧ st.crawledData.length < cfg.maxPages := by
  unfold crawlStoppedB at hs
  rw [Bool.or_eq_false_iff] at hs
  obtain ⟨hs1, hs2⟩ := hs
  rw [decide_eq_false_iff_not] at hs2
  exact ⟨isEmpty_false_ne hs1, by omega⟩

theorem batch_isEmpty_false {α : Type} [DecidableEq α] {st : CrawlState α}
    (h : (popBatch st).2 ≠ []) : (popBatch st).2.isEmpty = false := by
  cases hpb : (popBatch st).2 with
  | nil => exact absurd hpb h
  | cons a l => rfl

theorem crawlStep_inv {α : Type} [DecidableEq α] (cfg : CrawlConfig)
    (fetch : α → Option (List α)) (st : CrawlState α) (hInv : crawlInv cfg st) :
    crawlInv cfg (crawlStep cfg fetch st) := by
  obtain ⟨hcap, hdis, hnd⟩ := hInv
  cases hs : crawlStoppedB cfg st with
  | true =>
    have : crawlStep cfg fetch st = st := by simp [crawlStep, hs]
    rw [this]
    exact ⟨hcap, hdis, hnd⟩
  | false =>
    obtain ⟨p1, p2, p3, p4, p5, p6, p7, p8, p9⟩ := popBatch_spec st hdis hnd
    have hInvP : crawlInv cfg (popBatch st).1 := ⟨by rw [p3]; exact hcap, p7, p8⟩
    cases hb : (popBatch st).2.isEmpty with
    | true =>
      have : crawlStep cfg fetch st = (popBatch st).1 := by simp [crawlStep, hs, hb]
      rw [this]
      exact hInvP
    | false =>
      have : crawlStep cfg fetch st = processBatch cfg fetch (popBatch st).1 (popBatch st).2 := by
        simp [crawlStep, hs, hb]
      rw [this]
      exact processBatch_inv cfg fetch _ _ hInvP

theorem crawlFuel_inv {α : Type} [DecidableEq α] (cfg : CrawlConfig)
    (fetch : α → Option (List α)) :
    ∀ (n : Nat) (st : CrawlState α), crawlInv cfg st →
      crawlInv cfg (crawlFuel cfg fetch n st) := by
  intro n
  induction n with
  | zero =>
    intro st hInv
    exact hInv
  | succ n ih =>
    intro st hInv
    obtain ⟨hcap, hdis, hnd⟩ := hInv
    cases hs : crawlStoppedB cfg st with
    | true =>
      have : crawlFuel cfg fetch (n + 1) st = st := by simp [crawlFuel, hs]
      rw [this]
      exact ⟨hcap, hdis, hnd⟩
    | false =>
      obtain ⟨p1, p2, p3, p4, p5, p6, p7, p8, p9⟩ := popBatch_spec st hdis hnd
      have hInvP : crawlInv cfg (popBatch st).1 := ⟨by rw [p3]; exact hcap, p7, p8⟩
      cases hb : (popBatch st).2.isEmpty with
      | true =>
        have : crawlFuel cfg fetch (n + 1) st = (popBatch st).1 := by
          simp [crawlFuel, hs, hb]
        rw [this]
        exact hInvP
      | false =>
        have : crawlFuel cfg fetch (n + 1) st =
            crawlFuel cfg fetch n (processBatch cfg fetch (popBatch st).1 (popBatch st).2) := by
          simp [crawlFuel, hs, hb]
        rw [this]
        exact ih _ (processBatch_inv cfg fetch _ _ hInvP)

theorem crawlFuel_stopped {α : Type} [DecidableEq α] (cfg : CrawlConfig)
    (fetch : α → Option (List α)) (n : Nat) (st : CrawlState α)
    (hs : crawlStoppedB cfg st = true) : crawlFuel cfg fetch n st = st := by
  cases n with
  | zero => rfl
  | succ n => simp [crawlFuel, hs]

theorem crawlFuel_succ_run {α : Type} [DecidableEq α] (cfg : CrawlConfig)
    (fetch : α → Option (List α)) (n : Nat) (st : CrawlState α)
    (hs : crawlStoppedB cfg st = false) (hb : (popBatch st).2 ≠ []) :
    crawlFuel cfg fetch (n + 1) st = crawlFuel cfg fetch n (crawlStep cfg fetch st) := by
  have hb' := batch_isEmpty_false hb
  have h1 : crawlFuel cfg fetch (n + 1) st =
      crawlFuel cfg fetch n (processBatch cfg fetch (popBatch st).1 (popBatch st).2) := by
    simp [crawlFuel, hs, hb']
  have h2 : crawlStep cfg fetch st = processBatch cfg fetch (popBatch st).1 (popBatch st).2 := by
    simp [crawlStep, hs, hb']
  rw [h1, h2]

theorem crawlStep_measure {α : Type} [DecidableEq α] (cfg : CrawlConfig)
    (fetch : α → Option (List α)) (st : CrawlState α)
    (hInv : crawlInv cfg st) (hs : crawlStoppedB cfg st = false) :
    st.crawledData.length < (crawlStep cfg fetch st).crawledData.length
    ∨ ((crawlStep cfg fetch st).crawledData.length = st.crawledData.length
        ∧ (crawlStep cfg fetch st).urlQueue.length < st.urlQueue.length) := by
  obtain ⟨hqne, hlt⟩ := crawlStoppedB_false hs
  obtain ⟨hcap, hdis, hnd⟩ := hInv
  obtain ⟨p1, p2, p3, p4, p5, p6, p7, p8, p9⟩ := popBatch_spec st hdis hnd
  obtain ⟨hbne, hqlt⟩ := p9 hqne
  have hred : crawlStep cfg fetch st =
      processBatch cfg fetch (popBatch st).1 (popBatch st).2 := by
    simp [crawlStep, hs, batch_isEmpty_false hbne]
  rw [hred]
  obtain ⟨f1, f2, ⟨t, ht⟩, f4, f5⟩ := processBatch_fields cfg fetch (popBatch st).2 (popBatch st).1
  have hplen : (popBatch st).1.crawledData.length = st.crawledData.length := by rw [p3]
  cases ht0 : t with
  | nil =>
    right
    have hlen : (processBatch cfg fetch (popBatch st).1 (popBatch st).2).crawledData.length
        = (popBatch st).1.crawledData.length := by
      rw [ht, ht0]
      simp
    refine ⟨by rw [hlen, hplen], ?_⟩
    rw [f4 hlen]
    exact hqlt
  | cons x xs =>
    left
    have hlen : (processBatch cfg fetch (popBatch st).1 (popBatch st).2).crawledData.length
        = (popBatch st).1.crawledData.length + t.length := by
      rw [ht]
      simp
    rw [ht0] at hlen
    simp only [List.length_cons] at hlen
    omega

theorem crawlFuel_ghost {α : Type} [DecidableEq α] (cfg : CrawlConfig)
    (fetch : α → Option (List α)) :
    ∀ (n : Nat) (st : CrawlState α), crawlInv cfg st →
      st.visited = st.dispatched → st.visited.Nodup →
      (crawlFuel cfg fetch n st).visited = (crawlFuel cfg fetch n st).dispatched
      ∧ (crawlFuel cfg fetch n st).visited.Nodup := by
  intro n
  induction n with
  | zero =>
    intro st _ hvd hnd
    exact ⟨hvd, hnd⟩
  | succ n ih =>
    intro st hInv hvd hnd
    obtain ⟨hcap, hdis, hndq⟩ := hInv
    cases hs : crawlStoppedB cfg st with
    | true =>
      have : crawlFuel cfg fetch (n + 1) st = st := by simp [crawlFuel, hs]
      rw [this]
      exact ⟨hvd, hnd⟩
    | false =>
      obtain ⟨p1, p2, p3, p4, p5, p6, p7, p8, p9⟩ := popBatch_spec st hdis hndq
      have hInvP : crawlInv cfg (popBatch st).1 := ⟨by rw [p3]; exact hcap, p7, p8⟩
      have hvdP : (popBatch st).1.visited
          = (popBatch st).1.dispatched ++ (popBatch st).2.map Prod.fst := by
        rw [p1, p2, hvd]
      have hndP : (popBatch st).1.visited.Nodup := by
        rw [p1, List.nodup_append]
        refine ⟨hnd, p5, ?_⟩
        intro a ha hmem
        exact p6 a hmem ha
      cases hb : (popBatch st).2.isEmpty with
      | true =>
        have hbn : (popBatch st).2 = [] := by
          cases hpb : (popBatch st).2 with
          | nil => rfl
          | cons a l => rw [hpb] at hb; exact absurd hb (by simp)
        have : crawlFuel cfg fetch (n + 1) st = (popBatch st).1 := by
          simp [crawlFuel, hs, hb]
        rw [this]
        refine ⟨?_, hndP⟩
        rw [hvdP, hbn]
        simp
      | false =>
        have hred : crawlFuel cfg fetch (n + 1) st =
            crawlFuel cfg fetch n (processBatch cfg fetch (popBatch st).1 (popBatch st).2) := by
          simp [crawlFuel, hs, hb]
        rw [hred]
        obtain ⟨f1, f2, _, _, _⟩ := processBatch_fields cfg fetch (popBatch st).2 (popBatch st).1
        refine ih _ (processBatch_inv cfg fetch _ _ hInvP) ?_ ?_
        · rw [f1, f2, hvdP]
        · rw [f1]
          exact hndP

/-- The invariant holds right after __init__. -/
theorem initCrawlState_inv {α : Type} (cfg : CrawlConfig) (baseUrl : α) :
    crawlInv cfg (initCrawlState baseUrl) := by
  refine ⟨by simp [initCrawlState], ?_, ?_⟩
  · intro u hu
    simp [initCrawlState] at hu
    simp [initCrawlState, hu]
  · simp [initCrawlState]

/-- Claim C3: in a crawl session started from __init__, the visited list
always coincides with the dispatch log (so its size equals the number of
dispatch events), the visited list never holds a URL twice (no URL is
dispatched twice), and every loop iteration only appends to the visited
set. -/
theorem claim_C3_visited_monotone {α : Type} [DecidableEq α] (cfg : CrawlConfig)
    (fetch : α → Option (List α)) (baseUrl : α) (n : Nat) :
    (crawlFuel cfg fetch n (initCrawlState baseUrl)).visited
        = (crawlFuel cfg fetch n (initCrawlState baseUrl)).dispatched
    ∧ (crawlFuel cfg fetch n (initCrawlState baseUrl)).visited.Nodup
    ∧ ∀ st : CrawlState α, ∃ t, (crawlStep cfg fetch st).visited = st.visited ++ t := by
  obtain ⟨h1, h2⟩ := crawlFuel_ghost cfg fetch n (initCrawlState baseUrl)
    (initCrawlState_inv cfg baseUrl) rfl (by simp [initCrawlState])
  refine ⟨h1, h2, ?_⟩
  intro st
  cases hs : crawlStoppedB cfg st with
  | true =>
    refine ⟨[], ?_⟩
    have : crawlStep cfg fetch st = st := by simp [crawlStep, hs]
    rw [this]
    simp
  | false =>
    obtain ⟨g1, _, _, m, _⟩ :=
      popLoop_spec (min 3 st.urlQueue.length) st.visited st.urlQueue
    have hpv : (popBatch st).1.visited = st.visited ++ (popBatch st).2.map Prod.fst := by
      have hv' : (popBatch st).1.visited =
          (popLoop (min 3 st.urlQueue.length) st.visited st.urlQueue).1 := rfl
      have hb' : (popBatch st).2 =
          (popLoop (min 3 st.urlQueue.length) st.visited st.urlQueue).2.2 := rfl
      rw [hv', hb']
      exact g1
    cases hb : (popBatch st).2.isEmpty with
    | true =>
      refine ⟨(popBatch st).2.map Prod.fst, ?_⟩
      have : crawlStep cfg fetch st = (popBatch st).1 := by simp [crawlStep, hs, hb]
      rw [this]
      exact hpv
    | false =>
      refine ⟨(popBatch st).2.map Prod.fst, ?_⟩
      have : crawlStep cfg fetch st =
          processBatch cfg fetch (popBatch st).1 (popBatch st).2 := by
        simp [crawlStep, hs, hb]
      rw [this]
      obtain ⟨f1, _, _, _, _⟩ := processBatch_fields cfg fetch (popBatch st).2 (popBatch st).1
      rw [f1]
      exact hpv

/-- Termination of the crawl loop: from any state satisfying the invariant,
some number of iterations reaches a state where the while-condition fails
(frontier empty or page cap reached).  The proof descends along the
lexicographic measure (pages still allowed, queue length). -/
theorem crawl_terminates {α : Type} [DecidableEq α] (cfg : CrawlConfig)
    (fetch : α → Option (List α)) :
    ∀ st : CrawlState α, crawlInv cfg st →
      ∃ n, crawlStoppedB cfg (crawlFuel cfg fetch n st) = true := by
  suffices h : ∀ (d q : Nat) (st : CrawlState α), crawlInv cfg st →
      cfg.maxPages - st.crawledData.length ≤ d → st.urlQueue.length ≤ q →
      ∃ n, crawlStoppedB cfg (crawlFuel cfg fetch n st) = true by
    intro st hInv
    exact h (cfg.maxPages - st.crawledData.length) st.urlQueue.length st hInv le_rfl le_rfl
  intro d
  induction d with
  | zero =>
    intro q st hInv hd _
    refine ⟨0, ?_⟩
    have hle : cfg.maxPages ≤ st.crawledData.length := by omega
    simp [crawlFuel, crawlStoppedB, hle]
  | succ d ihd =>
    intro q
    induction q with
    | zero =>
      intro st hInv hd hq
      refine ⟨0, ?_⟩
      have hnil : st.urlQueue = [] := List.eq_nil_of_length_eq_zero (by omega)
      simp [crawlFuel, crawlStoppedB, hnil]
    | succ q ihq =>
      intro st hInv hd hq
      cases hs : crawlStoppedB cfg st with
      | true => exact ⟨0, hs⟩
      | false =>
        obtain ⟨hqne, hltc⟩ := crawlStoppedB_false hs
        obtain ⟨hcap, hdis, hnd⟩ := hInv
        obtain ⟨p1, p2, p3, p4, p5, p6, p7, p8, p9⟩ := popBatch_spec st hdis hnd
        obtain ⟨hbne, hqlt⟩ := p9 hqne
        have hInv' : crawlInv cfg (crawlStep cfg fetch st) :=
          crawlStep_inv cfg fetch st ⟨hcap, hdis, hnd⟩
        have hstep := crawlStep_measure cfg fetch st ⟨hcap, hdis, hnd⟩ hs
        have hcap' := hInv'.1
        rcases hstep with hgrow | ⟨hsame, hql⟩
        · have hd' : cfg.maxPages - (crawlStep cfg fetch st).crawledData.length ≤ d := by
            omega
          obtain ⟨n, hn⟩ := ihd (crawlStep cfg fetch st).urlQueue.length
            (crawlStep cfg fetch st) hInv' hd' le_rfl
          exact ⟨n + 1, by rw [crawlFuel_succ_run cfg fetch n st hs hbne]; exact hn⟩
        · obtain ⟨n, hn⟩ := ihq (crawlStep cfg fetch st) hInv' (by omega) (by omega)
          exact ⟨n + 1, by rw [crawlFuel_succ_run cfg fetch n st hs hbne]; exact hn⟩

theorem isEmpty_true_nil {α : Type} {l : List α} (h : l.isEmpty = true) : l = [] := by
  cases l with
  | nil => rfl
  | cons a t => exact absurd h (by simp)

theorem stopped_cases {α : Type} {cfg : CrawlConfig} {st : CrawlState α}
    (h : crawlStoppedB cfg st = true) :
    st.urlQueue = [] ∨ cfg.maxPages ≤ st.crawledData.length := by
  unfold crawlStoppedB at h
  rcases Bool.or_eq_true_iff.mp h with h | h
  · exact Or.inl (isEmpty_true_nil h)
  · exact Or.inr (of_decide_eq_true h)

theorem enqueueOne_exh_irrel {α : Type} [DecidableEq α] (d1 d2 mp : Nat) (depth : Nat)
    (st : CrawlState α) (link : α) :
    enqueueOne ⟨d1, mp, true⟩ depth st link = enqueueOne ⟨d2, mp, true⟩ depth st link := by
  unfold enqueueOne
  simp

theorem enqueueLinks_exh_irrel {α : Type} [DecidableEq α] (d1 d2 mp : Nat) (depth : Nat) :
    ∀ (links : List α) (st : CrawlState α),
      enqueueLinks ⟨d1, mp, true⟩ depth st links = enqueueLinks ⟨d2, mp, true⟩ depth st links := by
  intro links
  induction links with
  | nil =>
    intro st
    rfl
  | cons l ls ih =>
    intro st
    have h1 : enqueueLinks (⟨d1, mp, true⟩ : CrawlConfig) depth st (l :: ls) =
        enqueueLinks (⟨d1, mp, true⟩ : CrawlConfig) depth
          (enqueueOne (⟨d1, mp, true⟩ : CrawlConfig) depth st l) ls := by
      simp [enqueueLinks]
    have h2 : enqueueLinks (⟨d2, mp, true⟩ : CrawlConfig) depth st (l :: ls) =
        enqueueLinks (⟨d2, mp, true⟩ : CrawlConfig) depth
          (enqueueOne (⟨d2, mp, true⟩ : CrawlConfig) depth st l) ls := by
      simp [enqueueLinks]
    rw [h1, h2, enqueueOne_exh_irrel d1 d2 mp, ih]

theorem crawlSingleUrl_exh_irrel {α : Type} [DecidableEq α] (d1 d2 mp : Nat)
    (fetch : α → Option (List α)) (st : CrawlState α) (url : α) (depth : Nat) :
    crawlSingleUrl ⟨d1, mp, true⟩ fetch st url depth
      = crawlSingleUrl ⟨d2, mp, true⟩ fetch st url depth := by
  unfold crawlSingleUrl
  cases hf : fetch url <;> simp [hf]

theorem processBatch_exh_irrel {α : Type} [DecidableEq α] (d1 d2 mp : Nat)
    (fetch : α → Option (List α)) :
    ∀ (batch : List (α × Nat)) (st : CrawlState α),
      processBatch ⟨d1, mp, true⟩ fetch st batch = processBatch ⟨d2, mp, true⟩ fetch st batch := by
  intro batch
  induction batch with
  | nil =>
    intro st
    rfl
  | cons ud rest ih =>
    intro st
    obtain ⟨url, depth⟩ := ud
    have h1 : processBatch (⟨d1, mp, true⟩ : CrawlConfig) fetch st ((url, depth) :: rest) =
        processBatch (⟨d1, mp, true⟩ : CrawlConfig) fetch
          (enqueueLinks (⟨d1, mp, true⟩ : CrawlConfig) depth
            (crawlSingleUrl (⟨d1, mp, true⟩ : CrawlConfig) fetch
              { st with dispatched := st.dispatched ++ [url] } url depth).1
            (crawlSingleUrl (⟨d1, mp, true⟩ : CrawlConfig) fetch
              { st with dispatched := st.dispatched ++ [url] } url depth).2)
          rest := by
      simp [processBatch]
    have h2 : processBatch (⟨d2, mp, true⟩ : CrawlConfig) fetch st ((url, depth) :: rest) =
        processBatch (⟨d2, mp, true⟩ : CrawlConfig) fetch
          (enqueueLinks (⟨d2, mp, true⟩ : CrawlConfig) depth
            (crawlSingleUrl (⟨d2, mp, true⟩ : CrawlConfig) fetch
              { st with dispatched := st.dispatched ++ [url] } url depth).1
            (crawlSingleUrl (⟨d2, mp, true⟩ : CrawlConfig) fetch
              { st with dispatched := st.dispatched ++ [url] } url depth).2)
          rest := by
      simp [processBatch]
    rw [h1, h2, crawlSingleUrl_exh_irrel d1 d2 mp, enqueueLinks_exh_irrel d1 d2 mp, ih]

theorem crawlFuel_exh_irrel {α : Type} [DecidableEq α] (d1 d2 mp : Nat)
    (fetch : α → Option (List α)) :
    ∀ (n : Nat) (st : CrawlState α),
      crawlFuel ⟨d1, mp, true⟩ fetch n st = crawlFuel ⟨d2, mp, true⟩ fetch n st := by
  intro n
  induction n with
  | zero =>
    intro st
    rfl
  | succ n ih =>
    intro st
    cases hs : crawlStoppedB (⟨d1, mp, true⟩ : CrawlConfig) st with
    | true =>
      have hs2 : crawlStoppedB (⟨d2, mp, true⟩ : CrawlConfig) st = true := hs
      rw [crawlFuel_stopped _ fetch (n + 1) st hs, crawlFuel_stopped _ fetch (n + 1) st hs2]
    | false =>
      have hs2 : crawlStoppedB (⟨d2, mp, true⟩ : CrawlConfig) st = false := hs
      cases hb : (popBatch st).2.isEmpty with
      | true =>
        have l1 : crawlFuel (⟨d1, mp, true⟩ : CrawlConfig) fetch (n + 1) st = (popBatch st).1 := by
          simp [crawlFuel, hs, hb]
        have l2 : crawlFuel (⟨d2, mp, true⟩ : CrawlConfig) fetch (n + 1) st = (popBatch st).1 := by
          simp [crawlFuel, hs2, hb]
        rw [l1, l2]
      | false =>
        have l1 : crawlFuel (⟨d1, mp, true⟩ : CrawlConfig) fetch (n + 1) st =
            crawlFuel (⟨d1, mp, true⟩ : CrawlConfig) fetch n
              (processBatch (⟨d1, mp, true⟩ : CrawlConfig) fetch (popBatch st).1 (popBatch st).2) := by
          simp [crawlFuel, hs, hb]
        have l2 : crawlFuel (⟨d2, mp, true⟩ : CrawlConfig) fetch (n + 1) st =
            crawlFuel (⟨d2, mp, true⟩ : CrawlConfig) fetch n
              (processBatch (⟨d2, mp, true⟩ : CrawlConfig) fetch (popBatch st).1 (popBatch st).2) := by
          simp [crawlFuel, hs2, hb]
        rw [l1, l2, processBatch_exh_irrel d1 d2 mp, ih]

/-- The complete page graph of the termination scenario: pages 0..n-1, each
linking to all the others (links listed in page-index order); fetching any
of them succeeds. -/
def completeGraphFetch (n : Nat) : Nat → Option (List Nat) := fun u =>
  if u < n then some ((List.range n).filter fun v => v ≠ u) else none

/-- Exhaustive-mode configuration with max_pages = 5. -/
def scenarioConfig (maxDepth : Nat) : CrawlConfig := ⟨maxDepth, 5, true⟩

/-- The crawl of the 20-page complete graph under max_pages = 5 (three loop
iterations reach the cap). -/
def scenarioRun (maxDepth : Nat) : CrawlState Nat :=
  crawlFuel (scenarioConfig maxDepth) (completeGraphFetch 20) 3 (initCrawlState 0)

/-- Claim C2 (amended): in exhaustive mode (any max_depth) with max_pages = 5
on the 20-page complete graph, the crawl terminates with exactly 5 page
records; only the 5 recorded pages are ever fetched and the other 15 are
never fetched (the visited set additionally absorbs 2 dispatched-but-guarded
URLs); in general the crawled-data list never exceeds max_pages and the loop
always reaches a state with an empty frontier or a crawled count equal to
max_pages.  (In limited mode with max_depth = 0 the scenario yields 1 record,
see the counterexample.) -/
theorem claim_C2_termination_cap (maxDepth : Nat) :
    ((scenarioRun maxDepth).crawledData.length = 5
      ∧ (scenarioRun maxDepth).fetched = [0, 1, 2, 3, 4]
      ∧ (∀ u ∈ (List.range 20).drop 5, u ∉ (scenarioRun maxDepth).fetched)
      ∧ crawlStoppedB (scenarioConfig maxDepth) (scenarioRun maxDepth) = true
      ∧ (∀ m, crawlFuel (scenarioConfig maxDepth) (completeGraphFetch 20) m
            (scenarioRun maxDepth) = scenarioRun maxDepth))
    ∧ (∀ (β : Type) (inst : DecidableEq β) (cfg : CrawlConfig)
        (fetch : β → Option (List β)) (baseUrl : β) (n : Nat),
        (crawlFuel cfg fetch n (initCrawlState baseUrl)).crawledData.length ≤ cfg.maxPages)
    ∧ (∀ (β : Type) (inst : DecidableEq β) (cfg : CrawlConfig)
        (fetch : β → Option (List β)) (baseUrl : β),
        ∃ n, (crawlFuel cfg fetch n (initCrawlState baseUrl)).urlQueue = []
          ∨ (crawlFuel cfg fetch n (initCrawlState baseUrl)).crawledData.length
              = cfg.maxPages) := by
  refine ⟨?_, ?_, ?_⟩
  · have hirrel : scenarioRun maxDepth = scenarioRun 0 :=
      crawlFuel_exh_irrel maxDepth 0 5 (completeGraphFetch 20) 3 (initCrawlState 0)
    have hstop0 : crawlStoppedB (scenarioConfig maxDepth) (scenarioRun 0) = true := by
      show crawlStoppedB (scenarioConfig 0) (scenarioRun 0) = true
      decide
    rw [hirrel]
    refine ⟨by decide, by decide, by decide, hstop0, ?_⟩
    intro m
    exact crawlFuel_stopped _ _ m _ hstop0
  · intro β inst cfg fetch baseUrl n
    exact (crawlFuel_inv cfg fetch n (initCrawlState baseUrl)
      (initCrawlState_inv cfg baseUrl)).1
  · intro β inst cfg fetch baseUrl
    obtain ⟨n, hn⟩ := crawl_terminates cfg fetch (initCrawlState baseUrl)
      (initCrawlState_inv cfg baseUrl)
    refine ⟨n, ?_⟩
    rcases stopped_cases hn with h | h
    · exact Or.inl h
    · right
      have hcap := (crawlFuel_inv cfg fetch n (initCrawlState baseUrl)
        (initCrawlState_inv cfg baseUrl)).1
      omega

/-- Claim C2, witness: the scenario at a concrete max_depth. -/
theorem claim_C2_termination_cap_witness :
    (scenarioRun 7).crawledData.length = 5 :=
  (claim_C2_termination_cap 7).1.1

/-- Claim C2, counterexample: the claim quantifies over every configuration
with max_pages = 5, but in limited mode with max_depth = 0 the crawl of the
20-page complete graph stops after a single page record; moreover even in
exhaustive mode the visited set ends with 7 entries, not 5, so 13 pages (not
15) stay out of it. -/
theorem claim_C2_counterexample :
    (crawlFuel ⟨0, 5, false⟩ (completeGraphFetch 20) 5 (initCrawlState 0)).crawledData.length = 1
    ∧ crawlStoppedB ⟨0, 5, false⟩
        (crawlFuel ⟨0, 5, false⟩ (completeGraphFetch 20) 5 (initCrawlState 0)) = true
    ∧ (crawlFuel ⟨9, 5, true⟩ (completeGraphFetch 20) 3 (initCrawlState 0)).visited.length = 7 := by
  refine ⟨by decide, by decide, by decide⟩

/-- Claim C3, witness: the visited list equals the dispatch log on a concrete
run of the 20-page graph. -/
theorem claim_C3_visited_monotone_witness :
    (crawlFuel ⟨3, 10, true⟩ (completeGraphFetch 20) 2 (initCrawlState 0)).visited
      = (crawlFuel ⟨3, 10, true⟩ (completeGraphFetch 20) 2 (initCrawlState 0)).dispatched :=
  (claim_C3_visited_monotone ⟨3, 10, true⟩ (completeGraphFetch 20) 0 2).1
